import Mathlib

/-!
Verification of examples/link_prediction_hetero/link_prediction_tensor.py.

The script is a link-prediction experiment driver.  This file gives a
shallow embedding of its pure logic: the graph transformer WN_transform,
the loss of HeteroNet, the accuracy bookkeeping of the train and test
routines, the best-model tracking, the control flow of the training loop
and the use the script makes of its command-line arguments.  External
library collaborators (graph convolutions, batching, splitting) are
treated as black boxes: a batch enters the embedding as the per-relation
predicted probabilities p = torch.sigmoid(pred[key]) together with the
ground-truth labels batch.edge_label[key].

Machine floats are modelled as rationals where the script only compares,
counts and divides, and as reals where it takes exp and log (the loss).
Fallible Python code is modelled with Except over an error type that
distinguishes the exceptions the script can raise.
-/

namespace LinkPredTensor

/-- Python runtime errors relevant to the script. -/
inductive PyErr where
  | nameError
  | zeroDivisionError
  | indexError
  | attributeError
deriving DecidableEq

/-- One relation type of a batch as the train and test routines see it:
the key, the sigmoided predictions p = torch.sigmoid(pred[key]) and the
ground-truth labels batch.edge_label[key]. -/
structure RelPred where
  key : String
  probs : List ℚ
  labels : List ℤ
deriving DecidableEq

/-- A batch is the collection of its relation types (dict iteration order). -/
abbrev Batch := List RelPred

/-- The label assigned to one predicted probability, transcribed from
pred_label = np.zeros_like(p); pred_label[np.where(p > 0.5)[0]] = 1;
pred_label[np.where(p <= 0.5)[0]] = 0, read elementwise. -/
def predLabelCode (p : ℚ) : ℤ :=
  let l0 : ℤ := 0
  let l1 : ℤ := if 1/2 < p then 1 else l0
  let l2 : ℤ := if p ≤ 1/2 then 0 else l1
  l2

/-- np.sum(pred_label == batch.edge_label[key].cpu().numpy()) for one
relation type. -/
def keyCorrect (r : RelPred) : ℕ :=
  (r.probs.zip r.labels).countP (fun q => decide (predLabelCode q.1 = q.2))

/-- Correct predictions contributed by one batch, summed over its
relation types. -/
def batchCorrect (b : Batch) : ℕ :=
  (b.map keyCorrect).sum

/-- len(pred_label) summed over the relation types of one batch: the
number of candidate edges of the batch. -/
def batchCount (b : Batch) : ℕ :=
  (b.map (fun r => r.probs.length)).sum

/-- The batch loop of test over one split: acc accumulates across
batches, while num is reset to 0 at the top of each batch body and only
then accumulated, so after the loop num holds the count of the last
batch alone.  The incoming num is an Option: in Python the variable is
simply undefined before its first assignment. -/
def runBatches (acc : ℕ) (num : Option ℕ) : List Batch → ℕ × Option ℕ
  | [] => (acc, num)
  | b :: rest => runBatches (acc + batchCorrect b) (some (batchCount b)) rest

/-- The split loop of test: per split, acc is reset, the batches are
folded, and accs[mode] = acc / num is formed.  Reading num before any
batch ever assigned it is a Python NameError; num = 0 is a
ZeroDivisionError; both abort the routine. -/
def testGo (num : Option ℕ) : List (String × List Batch) → Except PyErr (List (String × ℚ))
  | [] => Except.ok []
  | (mode, dl) :: rest =>
    match runBatches 0 num dl with
    | (_, none) => Except.error PyErr.nameError
    | (_, some 0) => Except.error PyErr.zeroDivisionError
    | (acc, some (n + 1)) =>
      match testGo (some (n + 1)) rest with
      | Except.error err => Except.error err
      | Except.ok res => Except.ok ((mode, (acc : ℚ) / ((n + 1 : ℕ) : ℚ)) :: res)

/-- The test routine, lines 177-194 of the script, over the dataloaders
it is given (an association list in dict order). -/
def test (dataloaders : List (String × List Batch)) : Except PyErr (List (String × ℚ)) :=
  testGo none dataloaders

/-- Total correct predictions of a list of batches (what a
whole-split accumulation would give). -/
def totalCorrect (bs : List Batch) : ℕ :=
  (bs.map batchCorrect).sum

/-- Total candidate edges of a list of batches (what a whole-split
accumulation would give). -/
def totalCount (bs : List Batch) : ℕ :=
  (bs.map batchCount).sum

/-- The running pair (t_accu_sum, t_accu_cnt) of the training loop over
the batches of one epoch: both components are reset at the top of the
epoch and accumulated across its batches. -/
def trainAccCounts (bs : List Batch) : ℕ × ℕ :=
  bs.foldl (fun s b => (s.1 + batchCorrect b, s.2 + batchCount b)) (0, 0)

lemma trainAccCounts_go (bs : List Batch) (a c : ℕ) :
    bs.foldl (fun s b => (s.1 + batchCorrect b, s.2 + batchCount b)) (a, c)
      = (a + totalCorrect bs, c + totalCount bs) := by
  induction bs generalizing a c with
  | nil => simp [totalCorrect, totalCount]
  | cons b rest ih =>
    simp only [List.foldl_cons, ih, totalCorrect, totalCount, List.map_cons, List.sum_cons]
    rw [Prod.mk.injEq]
    omega

lemma trainAccCounts_eq (bs : List Batch) :
    trainAccCounts bs = (totalCorrect bs, totalCount bs) := by
  rw [trainAccCounts, trainAccCounts_go]
  simp

lemma runBatches_snd_zero (bs : List Batch) (acc : ℕ) (num : Option ℕ)
    (h1 : bs ≠ []) (h2 : ∀ b ∈ bs, batchCount b = 0) :
    (runBatches acc num bs).2 = some 0 := by
  induction bs generalizing acc num with
  | nil => exact absurd rfl h1
  | cons b rest ih =>
    rw [runBatches]
    rcases rest with _ | ⟨c, rest⟩
    · rw [runBatches]
      simp [h2 b (by simp)]
    · exact ih _ _ (by simp) (fun x hx => h2 x (List.mem_cons_of_mem b hx))

/-- Claim C1 (code_bug evidence): in the test routine the per-split
correct count acc accumulates across batches, but the candidate count
num is reset at the top of every batch body, so the reported ratio
divides by the last batch count alone.  On a split of two batches, each
with one candidate edge predicted correctly, the code reports accuracy
2 / 1 = 2, outside [0, 1], where one ratio of the accumulated totals
would give 2 / 2 = 1. -/
theorem test_accuracy_exceeds_one :
    test [("val", [[RelPred.mk "0" [9/10] [1]], [RelPred.mk "0" [9/10] [1]]])]
      = Except.ok [("val", 2)] ∧
    totalCorrect [[RelPred.mk "0" [9/10] [1]], [RelPred.mk "0" [9/10] [1]]] = 2 ∧
    totalCount [[RelPred.mk "0" [9/10] [1]], [RelPred.mk "0" [9/10] [1]]] = 2 ∧
    ¬ ((2 : ℚ) ≤ 1) := by
  refine ⟨?_, ?_, ?_, by norm_num⟩
  · norm_num [test, testGo, runBatches, batchCorrect, batchCount, keyCorrect, predLabelCode]
  · norm_num [totalCorrect, batchCorrect, keyCorrect, predLabelCode]
  · norm_num [totalCount, batchCount]

/-- Claim C5: the label threshold of both accuracy computations maps a
probability p to 1 exactly when p is above one half, and to 0 exactly
when p is at most one half, so p = 1/2 gets label 0; the training
accuracy counters accumulate matches and candidates over all batches of
the epoch; a single evaluation batch with probabilities
0.9, 0.2, 0.4, 0.6 against truth 1, 0, 1, 0 scores accuracy 1/2.  The
final two conjuncts document where the code deviates from the claim: an
evaluation split of two batches holding 2 matches out of 3 candidates in
total is reported as accuracy 1 because the denominator only counts the
last batch. -/
theorem pred_label_threshold_rule (p : ℚ) (bs : List Batch) :
    (predLabelCode p = 1 ↔ 1/2 < p) ∧
    (predLabelCode p = 0 ↔ p ≤ 1/2) ∧
    predLabelCode (1/2) = 0 ∧
    trainAccCounts bs = (totalCorrect bs, totalCount bs) ∧
    test [("s", [[RelPred.mk "0" [9/10, 2/10, 4/10, 6/10] [1, 0, 1, 0]]])]
      = Except.ok [("s", 1/2)] ∧
    test [("val", [[RelPred.mk "0" [9/10] [1]], [RelPred.mk "0" [9/10, 2/10] [1, 1]]])]
      = Except.ok [("val", 1)] ∧
    totalCorrect [[RelPred.mk "0" [9/10] [1]], [RelPred.mk "0" [9/10, 2/10] [1, 1]]] = 2 ∧
    totalCount [[RelPred.mk "0" [9/10] [1]], [RelPred.mk "0" [9/10, 2/10] [1, 1]]] = 3 := by
  have hcode : predLabelCode p = if p ≤ 1/2 then 0 else 1 := by
    rw [predLabelCode]
    split_ifs with h1 h2 <;> first | rfl | exact absurd (not_le.mp h1) h2
  refine ⟨?_, ?_, by norm_num [predLabelCode], trainAccCounts_eq bs, ?_, ?_, ?_, ?_⟩
  · rw [hcode]
    by_cases h : p ≤ 1/2
    · rw [if_pos h]
      constructor
      · intro h0
        exact absurd h0 (by norm_num)
      · intro hlt
        exact absurd h (not_le.mpr hlt)
    · rw [if_neg h]
      exact ⟨fun _ => not_le.mp h, fun _ => rfl⟩
  · rw [hcode]
    by_cases h : p ≤ 1/2
    · rw [if_pos h]
      exact ⟨fun _ => h, fun _ => rfl⟩
    · rw [if_neg h]
      constructor
      · intro h0
        exact absurd h0 (by norm_num)
      · intro hle
        exact absurd hle h
  · norm_num [test, testGo, runBatches, batchCorrect, batchCount, keyCorrect, predLabelCode]
  · norm_num [test, testGo, runBatches, batchCorrect, batchCount, keyCorrect, predLabelCode]
  · norm_num [totalCorrect, batchCorrect, keyCorrect, predLabelCode]
  · norm_num [totalCount, batchCount]

/-- Claim C8 counterexample: the claim says an empty split fails with a
division by zero, but in the code the count variable num of an empty
first split has never been assigned, so the failure is an undefined-name
error, not a division by zero. -/
theorem empty_split_fails_with_name_error :
    test [("val", [])] = Except.error PyErr.nameError ∧
    PyErr.nameError ≠ PyErr.zeroDivisionError := by
  exact ⟨rfl, by simp⟩

/-- Claim C8 (amended): when every batch of a split carries zero
candidate edges, the accuracy ratio of the test routine fails with a
division by zero, and the error aborts the routine unrecovered; a split
with no batches at all instead fails with an undefined-name error on
the count variable when no earlier split assigned it. -/
theorem zero_candidate_split_division_error (m : String) (bs : List Batch)
    (h1 : bs ≠ []) (h2 : ∀ b ∈ bs, batchCount b = 0) :
    test [(m, bs)] = Except.error PyErr.zeroDivisionError ∧
    test [(m, [])] = Except.error PyErr.nameError := by
  constructor
  · have hz := runBatches_snd_zero bs 0 none h1 h2
    rw [test, testGo]
    rcases hr : runBatches 0 none bs with ⟨a, n⟩
    rw [hr] at hz
    simp only at hz
    subst hz
    rfl
  · rfl

/-- Claim C8 witness: a split consisting of one batch that has no
relation types at all has zero candidate edges and indeed aborts with a
division by zero. -/
theorem zero_candidate_split_division_error_witness :
    test [("val", [([] : Batch)])] = Except.error PyErr.zeroDivisionError ∧
    test [("val", [])] = Except.error PyErr.nameError :=
  zero_candidate_split_division_error "val" [([] : Batch)] (by simp)
    (by intro b hb; simp at hb; subst hb; rfl)

/-- What the best_model variable of the training loop holds: live means
the very model object being trained (the initial assignment
best_model = model aliases, it does not copy), snapshot k means a deep
copy taken just after training step k. -/
inductive BestModel where
  | live
  | snapshot (step : ℕ)
deriving DecidableEq

/-- The state the training loop threads through its batch iterations:
val_max, best_model, and the number of optimizer steps taken so far
(the version of the live model). -/
structure TrainState where
  val_max : ℚ
  best : BestModel
  steps : ℕ
deriving DecidableEq

/-- One training batch: the optimizer steps the live model, the
validation accuracy a of the stepped model is computed, and
if val_max < a then val_max = a; best_model = copy.deepcopy(model). -/
def trainStep (s : TrainState) (a : ℚ) : TrainState :=
  let s1 : TrainState := { s with steps := s.steps + 1 }
  if s1.val_max < a then { s1 with val_max := a, best := BestModel.snapshot s1.steps }
  else s1

/-- val_max = 0; best_model = model before the epoch loop. -/
def initTrainState : TrainState := { val_max := 0, best := BestModel.live, steps := 0 }

/-- The loop state after the whole run, given the validation accuracy
observed at each batch step. -/
def trainRun (accs : List ℚ) : TrainState :=
  accs.foldl trainStep initTrainState

/-- The version of the model that the final test(best_model, ...) call
evaluates: the fully trained live model when best_model still aliases
it, otherwise the snapshot. -/
def finalEvalModel (s : TrainState) : ℕ :=
  match s.best with
  | BestModel.live => s.steps
  | BestModel.snapshot k => k

/-- Whether the comparison val_max < accs[i] triggers a deep copy at
each step, transcribed from the loop. -/
def copyFlagsGo (val_max : ℚ) : List ℚ → List Bool
  | [] => []
  | a :: rest =>
    decide (val_max < a) :: copyFlagsGo (if val_max < a then a else val_max) rest

/-- Copy flags of a whole run (val_max starts at 0). -/
def copyFlags (accs : List ℚ) : List Bool :=
  copyFlagsGo 0 accs

/-- The running maximum the loop has seen before step i: the maximum of
the first i accuracies and of the initial val_max = 0. -/
def runMax (accs : List ℚ) (i : ℕ) : ℚ :=
  (accs.take i).foldl max 0

lemma if_lt_eq_max (m a : ℚ) : (if m < a then a else m) = max m a := by
  rcases le_or_lt a m with h | h
  · rw [if_neg (not_lt.mpr h), max_eq_left h]
  · rw [if_pos h, max_eq_right (le_of_lt h)]

lemma copyFlagsGo_getD (accs : List ℚ) (m : ℚ) (i : ℕ) (h : i < accs.length) :
    ((copyFlagsGo m accs).getD i false = true
      ↔ (accs.take i).foldl max m < accs.getD i 0) := by
  induction accs generalizing m i with
  | nil => simp at h
  | cons a rest ih =>
    rcases i with _ | j
    · simp [copyFlagsGo]
    · rw [copyFlagsGo]
      have hj : j < rest.length := by simpa using h
      simpa [List.foldl_cons, if_lt_eq_max] using ih (max m a) j hj

/-- Claim C3 (amended): a deep copy of the model replaces best_model at
step i exactly when the validation accuracy at step i strictly exceeds
the running maximum of the accuracies seen before it together with the
initial val_max = 0, so a tie never triggers a copy; on the sequence
0.6, 0.6, 0.7 the copies happen after the first and the third values
(0.6 already beats the initial 0) and not at the tie. -/
theorem best_model_copy_iff_strict_improvement (accs : List ℚ) (i : ℕ)
    (h : i < accs.length) :
    ((copyFlags accs).getD i false = true ↔ runMax accs i < accs.getD i 0) ∧
    copyFlags [3/5, 3/5, 7/10] = [true, false, true] := by
  refine ⟨copyFlagsGo_getD accs 0 i h, ?_⟩
  norm_num [copyFlags, copyFlagsGo]

/-- Claim C3 witness: at the tie step of the sequence 0.6, 0.6, 0.7 the
flag agrees with the strict comparison against the running maximum. -/
theorem best_model_copy_iff_strict_improvement_witness :
    ((copyFlags [3/5, 3/5, 7/10]).getD 1 false = true
      ↔ runMax [3/5, 3/5, 7/10] 1 < ([3/5, 3/5, 7/10] : List ℚ).getD 1 0) ∧
    copyFlags [3/5, 3/5, 7/10] = [true, false, true] :=
  best_model_copy_iff_strict_improvement [3/5, 3/5, 7/10] 1 (by norm_num)

/-- Claim C3 counterexample: the claim asserts that on the validation
accuracy sequence 0.6, 0.6, 0.7 the snapshot is updated only after the
third value, but the code also copies after the first value, because
0.6 strictly exceeds the initial val_max = 0. -/
theorem best_model_copy_on_first_value :
    copyFlags [3/5, 3/5, 7/10] = [true, false, true] ∧
    (copyFlags [3/5, 3/5, 7/10]).getD 0 false = true := by
  norm_num [copyFlags, copyFlagsGo]

lemma trainRun_go_no_improvement (accs : List ℚ) (s : TrainState)
    (hv : s.val_max = 0) (hb : s.best = BestModel.live)
    (h : ∀ a ∈ accs, a ≤ 0) :
    accs.foldl trainStep s
      = { val_max := 0, best := BestModel.live, steps := s.steps + accs.length } := by
  induction accs generalizing s with
  | nil =>
    rw [List.foldl_nil]
    cases s
    simp_all
  | cons a rest ih =>
    have ha : ¬ ((0 : ℚ) < a) := not_lt.mpr (h a (by simp))
    have hstep : trainStep s a = { s with steps := s.steps + 1 } := by
      simp [trainStep, hv, ha]
    rw [List.foldl_cons, hstep,
      ih { s with steps := s.steps + 1 } (by simp [hv]) (by simp [hb])
        (fun x hx => h x (List.mem_cons_of_mem a hx))]
    simp only [List.length_cons]
    congr 1
    omega

/-- Claim C9: best_model starts as an alias of the live model rather
than a copy, and in a run whose validation accuracy never strictly
exceeds 0 no deep copy is ever taken, so the final Best evaluation runs
on the fully trained live model (the model after all accs.length
optimizer steps). -/
theorem best_model_alias_without_improvement (accs : List ℚ)
    (h : ∀ a ∈ accs, a ≤ 0) :
    initTrainState.best = BestModel.live ∧
    (trainRun accs).best = BestModel.live ∧
    finalEvalModel (trainRun accs) = accs.length := by
  have hrun := trainRun_go_no_improvement accs initTrainState rfl rfl h
  rw [trainRun, hrun]
  refine ⟨rfl, rfl, ?_⟩
  simp [finalEvalModel, initTrainState]

/-- Claim C9 witness: two batches both scoring validation accuracy 0
leave best_model an alias, and the final evaluation target is the live
model after both steps. -/
theorem best_model_alias_without_improvement_witness :
    initTrainState.best = BestModel.live ∧
    (trainRun [0, 0]).best = BestModel.live ∧
    finalEvalModel (trainRun [0, 0]) = ([0, 0] : List ℚ).length :=
  best_model_alias_without_improvement [0, 0]
    (by intro a ha; simp at ha; simp [ha])

/-- Observable events of the training loop: a call of test (on the best
model or on the live one, over the listed split keys), a per-batch
formatted log line tagged with its epoch, and the final Best line. -/
inductive Ev where
  | evalSplits (onBest : Bool) (splits : List String)
  | logLine (epoch : ℕ)
  | finalLog
deriving DecidableEq

/-- Keys of the dataloaders dict built in main, in insertion order. -/
def dataloaderKeys : List String := ["train", "val", "test"]

/-- Keys of the dict comprehension passed to test after each batch:
every key of dataloaders other than train. -/
def nonTrainKeys : List String := dataloaderKeys.filter (fun k => k ≠ "train")

/-- Python range(a, b) as iterated by the loop header. -/
def pyRange (a b : ℕ) : List ℕ := List.range' a (b - a)

/-- The two events of one batch body: the evaluation of the live model
on the non-train splits, then the printed log line. -/
def batchEvents (ep : ℕ) : List Ev :=
  [Ev.evalSplits false nonTrainKeys, Ev.logLine ep]

/-- Events of one epoch: the batch body once per training batch. -/
def epochEvents (ep nb : ℕ) : List Ev :=
  ((List.range nb).map (fun _ => batchEvents ep)).flatten

/-- The full event trace of train: for epoch in range(1, args.epochs),
the per-batch events; after the loop one evaluation of best_model on
all of dataloaders and the final printed line. -/
def trainTrace (epochs nb : ℕ) : List Ev :=
  ((pyRange 1 epochs).map (fun ep => epochEvents ep nb)).flatten
    ++ [Ev.evalSplits true dataloaderKeys, Ev.finalLog]

/-- Number of per-batch log lines in a trace. -/
def countLog (t : List Ev) : ℕ :=
  t.countP (fun ev => match ev with | Ev.logLine _ => true | _ => false)

/-- Number of per-batch evaluations (live model, non-train splits). -/
def countBatchEvals (t : List Ev) : ℕ :=
  t.countP (fun ev => decide (ev = Ev.evalSplits false nonTrainKeys))

/-- Number of final evaluations (best model, all three splits). -/
def countFinalEvals (t : List Ev) : ℕ :=
  t.countP (fun ev => decide (ev = Ev.evalSplits true dataloaderKeys))

/-- The trace the spec describes, stated with its own words: epochs are
1 up to but excluding the configured count (range of the count with the
first element dropped), after every batch the non-train splits val and
test are evaluated and a line is logged, and after all epochs the best
model is evaluated once on all three splits and the final line printed. -/
def specTrace (epochs nb : ℕ) : List Ev :=
  (((List.range epochs).drop 1).map
      (fun ep => ((List.range nb).map
        (fun _ => [Ev.evalSplits false ["val", "test"], Ev.logLine ep])).flatten)).flatten
    ++ [Ev.evalSplits true ["train", "val", "test"], Ev.finalLog]

lemma range_drop_one (e : ℕ) : (List.range e).drop 1 = List.range' 1 (e - 1) := by
  induction e with
  | zero => simp
  | succ n ih =>
    rcases n with _ | m
    · simp [List.range_succ]
    · rw [List.range_succ, List.drop_append_of_le_length (by simp), ih]
      rw [Nat.succ_sub_one, Nat.succ_sub_one, List.range'_concat]
      have h1 : 1 + 1 * m = m + 1 := by omega
      rw [h1]

lemma countP_flatten (p : Ev → Bool) (L : List (List Ev)) :
    (L.flatten).countP p = (L.map (fun l => l.countP p)).sum := by
  induction L with
  | nil => simp
  | cons l rest ih => simp [List.countP_append, ih]

lemma countP_epochEvents (p : Ev → Bool) (ep nb : ℕ) :
    (epochEvents ep nb).countP p = nb * (batchEvents ep).countP p := by
  rw [epochEvents, countP_flatten, List.map_map]
  simp [Function.comp_def, mul_comm]

lemma countP_trainTrace (p : Ev → Bool) (e nb : ℕ)
    (hsame : ∀ i j, (batchEvents i).countP p = (batchEvents j).countP p) :
    (trainTrace e nb).countP p
      = (e - 1) * (nb * (batchEvents 0).countP p)
        + ([Ev.evalSplits true dataloaderKeys, Ev.finalLog] : List Ev).countP p := by
  rw [trainTrace, List.countP_append, countP_flatten, List.map_map]
  congr 1
  have hmap : ∀ ep, ((fun l => List.countP p l) ∘ fun ep => epochEvents ep nb) ep
      = nb * (batchEvents 0).countP p := by
    intro ep
    simp only [Function.comp_apply, countP_epochEvents]
    rw [hsame ep 0]
  rw [List.map_congr_left (fun ep _ => hmap ep), List.map_const', List.sum_replicate,
    smul_eq_mul, pyRange, List.length_range']

/-- Claim C6: the training loop iterates the epochs 1 up to but
excluding the configured count; the trace it produces is exactly the
one the spec describes; it logs one line per training batch, (e-1)*nb
lines in total, each preceded by an evaluation of the live model on the
non-train splits val and test; and after all epochs it evaluates the
best model exactly once, on all three splits, before the final line
that ends the trace. -/
theorem train_loop_trace (e nb : ℕ) :
    pyRange 1 e = (List.range e).drop 1 ∧
    trainTrace e nb = specTrace e nb ∧
    countLog (trainTrace e nb) = (e - 1) * nb ∧
    countBatchEvals (trainTrace e nb) = (e - 1) * nb ∧
    countFinalEvals (trainTrace e nb) = 1 ∧
    (trainTrace e nb).getLast? = some Ev.finalLog ∧
    nonTrainKeys = ["val", "test"] ∧
    dataloaderKeys = ["train", "val", "test"] := by
  have hkeys : nonTrainKeys = ["val", "test"] := by
    simp [nonTrainKeys, dataloaderKeys]
  refine ⟨(range_drop_one e).symm, ?_, ?_, ?_, ?_, ?_, hkeys, rfl⟩
  · rw [trainTrace, specTrace, range_drop_one]
    simp only [pyRange, epochEvents, batchEvents, hkeys, dataloaderKeys]
  · rw [countLog, countP_trainTrace _ e nb (fun i j => by simp [batchEvents])]
    simp [batchEvents, dataloaderKeys]
  · rw [countBatchEvals, countP_trainTrace _ e nb (fun i j => by simp [batchEvents])]
    simp [batchEvents, hkeys, dataloaderKeys, nonTrainKeys]
  · rw [countFinalEvals, countP_trainTrace _ e nb (fun i j => by simp [batchEvents])]
    simp [batchEvents, hkeys, dataloaderKeys, nonTrainKeys]
  · rw [trainTrace,
      show ([Ev.evalSplits true dataloaderKeys, Ev.finalLog] : List Ev)
        = [Ev.evalSplits true dataloaderKeys] ++ [Ev.finalLog] from rfl,
      ← List.append_assoc]
    exact List.getLast?_concat _

/-- The parsed command-line arguments of arg_parse.  The two fields
edge_message_r and neg_sampling_r stand for the edge message fraction
and the negative sampling fraction options of the script. -/
structure Args where
  device : String
  data_path : String
  epochs : ℕ
  mode : String
  model : String
  edge_message_r : ℚ
  neg_sampling_r : ℚ
  hidden_dim : ℕ
deriving DecidableEq

/-- Defaults installed through parser.set_defaults in arg_parse. -/
def arg_parse_defaults : Args :=
  { device := "cuda:0"
    data_path := "data/WN18.gpickle"
    epochs := 500
    mode := "disjoint"
    model := "MlpMessage"
    edge_message_r := 4/5
    neg_sampling_r := 1
    hidden_dim := 16 }

/-- Constructor arguments of the HeteroNet built in main: the
heterogeneous graph (determined by the file at data_path), the hidden
size and the dropout probability. -/
structure HeteroNetConfig where
  data_source : String
  hidden_size : ℕ
  dropout : ℚ
deriving DecidableEq

/-- The model main constructs: HeteroNet(hete, hidden_size, 0.2) with
the local variable hidden_size = 32; neither args.hidden_dim nor
args.model is read anywhere after parsing. -/
def mainModel (args : Args) : HeteroNetConfig :=
  { data_source := args.data_path, hidden_size := 32, dropout := 1/5 }

/-- Everything the behaviour of main and train depends on through args:
the mode read into edge_train_mode, the data path given to the loader,
the device of the to-device calls, the epoch bound of the training
loop, and the constructed model. -/
structure RunBehavior where
  modelConfig : HeteroNetConfig
  device : String
  epochs : ℕ
  edge_train_mode : String
  data_path : String
deriving DecidableEq

/-- The observable configuration of one run of the script. -/
def mainBehavior (args : Args) : RunBehavior :=
  { modelConfig := mainModel args
    device := args.device
    epochs := args.epochs
    edge_train_mode := args.mode
    data_path := args.data_path }

/-- Claim C7: two argument records that agree on every field except
model and hidden_dim drive the run identically, the constructed model
in particular; the hidden size is the hardcoded 32, and the unused
options default to 16 and MlpMessage. -/
theorem unused_cli_args_same_model (a1 a2 : Args)
    (hdev : a1.device = a2.device) (hdata : a1.data_path = a2.data_path)
    (hep : a1.epochs = a2.epochs) (hmode : a1.mode = a2.mode)
    (_hmr : a1.edge_message_r = a2.edge_message_r)
    (_hnr : a1.neg_sampling_r = a2.neg_sampling_r) :
    mainBehavior a1 = mainBehavior a2 ∧
    mainModel a1 = mainModel a2 ∧
    (mainModel a1).hidden_size = 32 ∧
    arg_parse_defaults.hidden_dim = 16 ∧
    arg_parse_defaults.model = "MlpMessage" := by
  refine ⟨?_, ?_, rfl, rfl, rfl⟩ <;>
    simp [mainBehavior, mainModel, hdev, hdata, hep, hmode]

/-- Claim C7 witness: the defaults and a record that changes only model
and hidden_dim produce the same run behaviour. -/
theorem unused_cli_args_same_model_witness :
    mainBehavior arg_parse_defaults
        = mainBehavior { arg_parse_defaults with model := "Other", hidden_dim := 999 } ∧
    mainModel arg_parse_defaults
        = mainModel { arg_parse_defaults with model := "Other", hidden_dim := 999 } ∧
    (mainModel arg_parse_defaults).hidden_size = 32 ∧
    arg_parse_defaults.hidden_dim = 16 ∧
    arg_parse_defaults.model = "MlpMessage" :=
  unused_cli_args_same_model arg_parse_defaults
    { arg_parse_defaults with model := "Other", hidden_dim := 999 }
    rfl rfl rfl rfl rfl rfl

/-- torch.sigmoid. -/
noncomputable def sigmoid (x : ℝ) : ℝ := 1 / (1 + Real.exp (-x))

/-- torch.nn.BCEWithLogitsLoss with its default mean reduction: the
input is passed through a sigmoid and the binary cross entropy against
the target is averaged over the elements. -/
noncomputable def bceWithLogitsLoss (input target : List ℝ) : ℝ :=
  (((input.zip target).map
      (fun q => -(q.2 * Real.log (sigmoid q.1)
        + (1 - q.2) * Real.log (1 - sigmoid q.1)))).sum) / input.length

/-- y[key].type(pred[key].dtype): a dtype cast, the identity on the
real values both tensors hold. -/
def typeCast (t : List ℝ) : List ℝ := t

/-- The loss method of HeteroNet: loss = 0, then for each relation key
loss += BCEWithLogitsLoss()(torch.sigmoid(pred[key]), cast of y[key]).
pred is the prediction dict as an association list in iteration order;
y looks a key up in the ground-truth dict. -/
noncomputable def heteroNetLoss (pred : List (String × List ℝ)) (y : String → List ℝ) : ℝ :=
  pred.foldl
    (fun acc kv => acc + bceWithLogitsLoss (kv.2.map sigmoid) (typeCast (y kv.1))) 0

/-- The loss the spec describes: the sum over relation types, not the
average, of BCE-with-logits applied to the sigmoid of the score tensor
of that type against the ground-truth tensor cast to the score dtype. -/
noncomputable def specLoss (pred : List (String × List ℝ)) (y : String → List ℝ) : ℝ :=
  (pred.map (fun kv => bceWithLogitsLoss (kv.2.map sigmoid) (typeCast (y kv.1)))).sum

lemma foldl_add_sum (pred : List (String × List ℝ)) (y : String → List ℝ) (a : ℝ) :
    pred.foldl
        (fun acc kv => acc + bceWithLogitsLoss (kv.2.map sigmoid) (typeCast (y kv.1))) a
      = a + specLoss pred y := by
  induction pred generalizing a with
  | nil => simp [specLoss]
  | cons kv rest ih =>
    rw [List.foldl_cons, ih]
    simp only [specLoss, List.map_cons, List.sum_cons]
    ring

/-- Claim C2: for every prediction dict and ground-truth lookup over the
same relation keys the model loss is the sum across relation types of
BCE-with-logits applied to the already-sigmoided score against the cast
ground truth; spelled out on a two-key dict, the total is the plain sum
of the two per-type losses, each taking the sigmoid before the
logits-based loss. -/
theorem loss_is_sum_of_bce_on_sigmoid (pred : List (String × List ℝ))
    (y : String → List ℝ) (k1 k2 : String) (s1 s2 : List ℝ) :
    heteroNetLoss pred y = specLoss pred y ∧
    heteroNetLoss [(k1, s1), (k2, s2)] y
      = bceWithLogitsLoss (s1.map sigmoid) (typeCast (y k1))
        + bceWithLogitsLoss (s2.map sigmoid) (typeCast (y k2)) := by
  constructor
  · rw [heteroNetLoss, foldl_add_sum, zero_add]
  · rw [heteroNetLoss, foldl_add_sum, zero_add]
    simp [specLoss]

/-- The value stored under the e_label key of a raw edge: either a
zero-dimensional tensor scalar, which supports the item() method, or a
plain Python integer, which does not. -/
inductive ELabel where
  | tensorScalar (v : ℤ)
  | pyInt (v : ℤ)
deriving DecidableEq

/-- The integer value of the label (usable as a tensor index either way). -/
def ELabel.val : ELabel → ℤ
  | ELabel.tensorScalar v => v
  | ELabel.pyInt v => v

/-- Whether the label is a tensor scalar. -/
def ELabel.isTensorScalar : ELabel → Bool
  | ELabel.tensorScalar _ => true
  | ELabel.pyInt _ => false

/-- The item() call of WN_transform: a tensor scalar yields its value,
a plain int has no such attribute and raises AttributeError. -/
def ELabel.item : ELabel → Except PyErr ℤ
  | ELabel.tensorScalar v => Except.ok v
  | ELabel.pyInt _ => Except.error PyErr.attributeError

/-- An edge of the raw multigraph: endpoints, multigraph key, e_label. -/
structure RawEdge where
  u : ℕ
  v : ℕ
  key : ℕ
  e_label : ELabel
deriving DecidableEq

/-- The raw directed multigraph read from the gpickle file. -/
structure RawGraph where
  nodes : List ℕ
  edges : List RawEdge
deriving DecidableEq

/-- A node of the transformed multigraph H. -/
structure HNode where
  id : ℕ
  node_type : String
  node_feature : List ℚ
deriving DecidableEq

/-- An edge of the transformed multigraph H. -/
structure HEdge where
  u : ℕ
  v : ℕ
  edge_feature : List ℚ
  edge_type : String
deriving DecidableEq

/-- The transformed multigraph H, nodes and edges in insertion order. -/
structure HGraph where
  nodes : List HNode
  edges : List HEdge
deriving DecidableEq

/-- Tensor index assignment e_feat[l] = 1.: a torch tensor accepts
indices in [-len, len); a nonnegative index addresses directly, a
negative one counts from the end, anything else raises IndexError. -/
def torchSetIndex (xs : List ℚ) (i : ℤ) (v : ℚ) : Except PyErr (List ℚ) :=
  if 0 ≤ i ∧ i < (xs.length : ℤ) then Except.ok (xs.set i.toNat v)
  else if -(xs.length : ℤ) ≤ i ∧ i < 0 then
    Except.ok (xs.set (xs.length - (-i).toNat) v)
  else Except.error PyErr.indexError

/-- The edge body of WN_transform: l = G[u][v][edge_key][e_label];
e_feat = torch.zeros(num_edge_types); e_feat[l] = 1.;
H.add_edge(u, v, edge_feature=e_feat, edge_type=str(l.item())). -/
def processEdge (num_edge_types : ℕ) (e : RawEdge) : Except PyErr HEdge :=
  match torchSetIndex (List.replicate num_edge_types (0 : ℚ)) e.e_label.val 1 with
  | Except.error err => Except.error err
  | Except.ok feat =>
    match e.e_label.item with
    | Except.error err => Except.error err
    | Except.ok n =>
      Except.ok { u := e.u, v := e.v, edge_feature := feat, edge_type := toString n }

/-- The edge loop of WN_transform: edges processed in order, the first
raised exception aborting the transform. -/
def edgesMapE (num_edge_types : ℕ) : List RawEdge → Except PyErr (List HEdge)
  | [] => Except.ok []
  | e :: rest =>
    match processEdge num_edge_types e with
    | Except.error err => Except.error err
    | Except.ok he =>
      match edgesMapE num_edge_types rest with
      | Except.error err => Except.error err
      | Except.ok hes => Except.ok (he :: hes)

/-- The node body of WN_transform: every node gets type n1 and an
all-ones feature vector of length input_dim. -/
def processNode (input_dim : ℕ) (nd : ℕ) : HNode :=
  { id := nd, node_type := "n1", node_feature := List.replicate input_dim (1 : ℚ) }

/-- WN_transform, lines 61-70 of the script. -/
def WN_transform (G : RawGraph) (num_edge_types : ℕ) (input_dim : ℕ := 5) :
    Except PyErr HGraph :=
  match edgesMapE num_edge_types G.edges with
  | Except.error err => Except.error err
  | Except.ok hes =>
    Except.ok { nodes := G.nodes.map (processNode input_dim), edges := hes }

/-- The one-hot vector the spec describes: width n, entry 1 at index l,
entry 0 everywhere else. -/
def oneHotSpec (n l : ℕ) : List ℚ :=
  (List.range n).map (fun i => if i = l then 1 else 0)

/-- The edge record the spec describes: same endpoints, the one-hot
feature at the label index, the edge type equal to the stringified
label. -/
def specEdge (n : ℕ) (e : RawEdge) : HEdge :=
  { u := e.u, v := e.v, edge_feature := oneHotSpec n e.e_label.val.toNat,
    edge_type := toString e.e_label.val }

/-- The transformed graph the spec describes. -/
def specWN (G : RawGraph) (n d : ℕ) : HGraph :=
  { nodes := G.nodes.map (processNode d), edges := G.edges.map (specEdge n) }

/-- The one-hot shape property of the claim: width n, exactly one entry
equal to 1, sitting at index l, every other entry 0. -/
def oneHotProp (n l : ℕ) (feat : List ℚ) : Prop :=
  feat.length = n ∧ feat.count 1 = 1 ∧ feat[l]? = some 1 ∧ feat.count 0 = n - 1

/-- Identical topology: same node identifiers and the same endpoint
pairs, edge for edge, in the same order. -/
def topologyProp (G : RawGraph) (H : HGraph) : Prop :=
  H.nodes.map (fun nd => nd.id) = G.nodes ∧
  H.edges.map (fun e => (e.u, e.v)) = G.edges.map (fun e => (e.u, e.v))

/-- Per-edge hypothesis of the claim: every e_label is a tensor scalar
whose value lies in 0..num_edge_types-1. -/
def labelsInRange (G : RawGraph) (n : ℕ) : Prop :=
  ∀ e ∈ G.edges, e.e_label.isTensorScalar = true
    ∧ 0 ≤ e.e_label.val ∧ e.e_label.val < n

instance (G : RawGraph) (n : ℕ) : Decidable (labelsInRange G n) := by
  unfold labelsInRange
  infer_instance

lemma set_replicate_oneHot (n l : ℕ) (h : l < n) :
    (List.replicate n (0 : ℚ)).set l 1 = oneHotSpec n l := by
  apply List.ext_getElem?
  intro i
  rw [List.getElem?_set]
  simp only [oneHotSpec, List.getElem?_map, List.length_replicate]
  by_cases hi : l = i
  · subst hi
    rw [if_pos rfl, if_pos h, List.getElem?_range h]
    simp
  · rw [if_neg hi]
    by_cases hin : i < n
    · rw [List.getElem?_range hin]
      have hne : ¬ (i = l) := fun hc => hi hc.symm
      simp [hne, List.getElem?_replicate, hin]
    · rw [List.getElem?_replicate, if_neg hin,
        List.getElem?_eq_none (by simpa using not_lt.mp hin)]
      simp

lemma oneHotSpec_succ (n l : ℕ) :
    oneHotSpec (n + 1) l = oneHotSpec n l ++ [if n = l then 1 else 0] := by
  simp [oneHotSpec, List.range_succ]

lemma oneHot_count_one_ge (n l : ℕ) (h : n ≤ l) : (oneHotSpec n l).count 1 = 0 := by
  induction n with
  | zero => simp [oneHotSpec]
  | succ m ih =>
    rw [oneHotSpec_succ, List.count_append, ih (by omega), if_neg (by omega)]
    simp [List.count_cons]

lemma oneHot_count_one (n l : ℕ) (h : l < n) : (oneHotSpec n l).count 1 = 1 := by
  induction n with
  | zero => omega
  | succ m ih =>
    rw [oneHotSpec_succ, List.count_append]
    by_cases hm : l < m
    · rw [ih hm, if_neg (by omega)]
      simp [List.count_cons]
    · have hlm : l = m := by omega
      rw [oneHot_count_one_ge m l (by omega), if_pos hlm.symm]
      simp [List.count_cons]

lemma oneHot_count_zero_ge (n l : ℕ) (h : n ≤ l) : (oneHotSpec n l).count 0 = n := by
  induction n with
  | zero => simp [oneHotSpec]
  | succ m ih =>
    rw [oneHotSpec_succ, List.count_append, ih (by omega), if_neg (by omega)]
    simp [List.count_cons]

lemma oneHot_count_zero (n l : ℕ) (h : l < n) : (oneHotSpec n l).count 0 = n - 1 := by
  induction n with
  | zero => omega
  | succ m ih =>
    rw [oneHotSpec_succ, List.count_append]
    by_cases hm : l < m
    · rw [ih hm, if_neg (by omega)]
      simp [List.count_cons]
      omega
    · have hlm : l = m := by omega
      rw [oneHot_count_zero_ge m l (by omega), if_pos hlm.symm]
      norm_num [List.count_cons]

lemma oneHotProp_of_lt (n l : ℕ) (h : l < n) : oneHotProp n l (oneHotSpec n l) := by
  refine ⟨by simp [oneHotSpec], oneHot_count_one n l h, ?_, oneHot_count_zero n l h⟩
  rw [oneHotSpec, List.getElem?_map, List.getElem?_range h]
  simp

lemma processEdge_ok (n : ℕ) (e : RawEdge) (ht : e.e_label.isTensorScalar = true)
    (h0 : 0 ≤ e.e_label.val) (hn : e.e_label.val < n) :
    processEdge n e = Except.ok (specEdge n e) := by
  rcases e with ⟨u, v, k, l⟩
  cases l with
  | pyInt w => simp [ELabel.isTensorScalar] at ht
  | tensorScalar w =>
    simp only [ELabel.val] at h0 hn
    rw [processEdge, torchSetIndex]
    simp only [ELabel.val, List.length_replicate]
    rw [if_pos ⟨h0, hn⟩, set_replicate_oneHot n w.toNat (by omega)]
    rfl

lemma edgesMapE_ok (n : ℕ) (es : List RawEdge)
    (h : ∀ e ∈ es, e.e_label.isTensorScalar = true
      ∧ 0 ≤ e.e_label.val ∧ e.e_label.val < n) :
    edgesMapE n es = Except.ok (es.map (specEdge n)) := by
  induction es with
  | nil => rfl
  | cons e rest ih =>
    have he := h e (by simp)
    rw [edgesMapE, processEdge_ok n e he.1 he.2.1 he.2.2,
      ih (fun x hx => h x (List.mem_cons_of_mem e hx))]
    rfl

/-- Claim C4: when every edge label is a tensor scalar within
0..num_edge_types-1, WN_transform succeeds and returns exactly the
graph the spec describes: topology identical to the input, every edge
carrying a one-hot feature of width num_edge_types with its single 1 at
the label index and 0 elsewhere, and an edge type string equal to the
stringified label. -/
theorem wn_transform_one_hot (G : RawGraph) (n d : ℕ) (h : labelsInRange G n) :
    WN_transform G n d = Except.ok (specWN G n d) ∧
    topologyProp G (specWN G n d) ∧
    ∀ e ∈ G.edges, oneHotProp n e.e_label.val.toNat (specEdge n e).edge_feature ∧
      (specEdge n e).edge_type = toString e.e_label.val := by
  refine ⟨?_, ⟨?_, ?_⟩, ?_⟩
  · rw [WN_transform, edgesMapE_ok n G.edges h]
    rfl
  · rw [specWN]
    simp [processNode, Function.comp_def]
  · rw [specWN]
    simp [specEdge, Function.comp_def]
  · intro e he
    have hl := h e he
    exact ⟨oneHotProp_of_lt n e.e_label.val.toNat (by omega), rfl⟩

/-- Claim C4 witness: a raw graph with two edge labels 0 and 1 and one
edge labelled 1 transforms successfully; its edge feature is the
one-hot [0, 1] demanded by the spec scenario. -/
theorem wn_transform_one_hot_witness :
    labelsInRange (RawGraph.mk [0, 1] [RawEdge.mk 0 1 0 (ELabel.tensorScalar 1)]) 2 ∧
    (WN_transform (RawGraph.mk [0, 1] [RawEdge.mk 0 1 0 (ELabel.tensorScalar 1)]) 2 5
        = Except.ok (specWN (RawGraph.mk [0, 1] [RawEdge.mk 0 1 0 (ELabel.tensorScalar 1)]) 2 5) ∧
      topologyProp (RawGraph.mk [0, 1] [RawEdge.mk 0 1 0 (ELabel.tensorScalar 1)])
        (specWN (RawGraph.mk [0, 1] [RawEdge.mk 0 1 0 (ELabel.tensorScalar 1)]) 2 5) ∧
      ∀ e ∈ (RawGraph.mk [0, 1] [RawEdge.mk 0 1 0 (ELabel.tensorScalar 1)]).edges,
        oneHotProp 2 e.e_label.val.toNat (specEdge 2 e).edge_feature ∧
        (specEdge 2 e).edge_type = toString e.e_label.val) :=
  ⟨by decide, wn_transform_one_hot (RawGraph.mk [0, 1] [RawEdge.mk 0 1 0 (ELabel.tensorScalar 1)]) 2 5 (by decide)⟩

lemma processEdge_pyInt (n : ℕ) (e : RawEdge)
    (hf : e.e_label.isTensorScalar = false)
    (hlo : -(n : ℤ) ≤ e.e_label.val) (hhi : e.e_label.val < n) :
    processEdge n e = Except.error PyErr.attributeError := by
  rcases e with ⟨u, v, k, l⟩
  cases l with
  | tensorScalar w => simp [ELabel.isTensorScalar] at hf
  | pyInt w =>
    simp only [ELabel.val] at hlo hhi
    rw [processEdge, torchSetIndex]
    simp only [ELabel.val, List.length_replicate]
    rcases le_or_lt 0 w with h0 | h0
    · rw [if_pos ⟨h0, hhi⟩]
      rfl
    · rw [if_neg (fun hc => absurd hc.1 (not_le.mpr h0)), if_pos ⟨hlo, h0⟩]
      rfl

/-- Claim C10 (amended): on a raw graph with at least one edge, all of
whose e_label values are plain Python integers within the valid tensor
index range, WN_transform raises AttributeError at the item() call of
the edge-type construction instead of producing the stringified label;
a plain integer outside the index range fails earlier, with IndexError
at the one-hot assignment, and a graph without edges does not fail at
all. -/
theorem pyint_label_attribute_error (G : RawGraph) (n d : ℕ)
    (h1 : G.edges ≠ [])
    (h2 : ∀ e ∈ G.edges, e.e_label.isTensorScalar = false
      ∧ -(n : ℤ) ≤ e.e_label.val ∧ e.e_label.val < n) :
    WN_transform G n d = Except.error PyErr.attributeError := by
  rcases hG : G.edges with _ | ⟨e, rest⟩
  · exact absurd hG h1
  · have he := h2 e (by rw [hG]; simp)
    rw [WN_transform, hG, edgesMapE, processEdge_pyInt n e he.1 he.2.1 he.2.2]

/-- Claim C10 witness: one edge labelled with the plain int 1 (in range
for two edge types) aborts the transform with AttributeError. -/
theorem pyint_label_attribute_error_witness :
    ((RawGraph.mk [0, 1] [RawEdge.mk 0 1 0 (ELabel.pyInt 1)]).edges ≠ [] ∧
      (∀ e ∈ (RawGraph.mk [0, 1] [RawEdge.mk 0 1 0 (ELabel.pyInt 1)]).edges,
        e.e_label.isTensorScalar = false
          ∧ -((2 : ℕ) : ℤ) ≤ e.e_label.val ∧ e.e_label.val < (2 : ℕ))) ∧
    WN_transform (RawGraph.mk [0, 1] [RawEdge.mk 0 1 0 (ELabel.pyInt 1)]) 2 5
      = Except.error PyErr.attributeError :=
  ⟨⟨by decide, by decide⟩,
    pyint_label_attribute_error (RawGraph.mk [0, 1] [RawEdge.mk 0 1 0 (ELabel.pyInt 1)]) 2 5
      (by decide) (by decide)⟩

/-- Claim C10 counterexample: the claim quantifies over every graph
whose labels are plain Python integers, but a single edge labelled with
the out-of-range plain int 5 under 2 edge types dies with IndexError at
the feature assignment, not AttributeError, and a graph with no edges
(vacuously all plain ints) transforms without any error. -/
theorem pyint_label_not_always_attribute_error :
    WN_transform (RawGraph.mk [0] [RawEdge.mk 0 0 0 (ELabel.pyInt 5)]) 2 5
      = Except.error PyErr.indexError ∧
    PyErr.indexError ≠ PyErr.attributeError ∧
    WN_transform (RawGraph.mk [0] []) 2 5
      = Except.ok (HGraph.mk [HNode.mk 0 "n1" (List.replicate 5 1)] []) :=
  ⟨rfl, fun hc => PyErr.noConfusion hc, rfl⟩

end LinkPredTensor
